import Mathlib

/-!
Shallow embedding of the gisspy middleware core.

Two builder flavors share one execution algorithm:

* api flavor (`src/api.ts`, `ApiMiddlewareFactory.handler`): layers return
  `undefined`, `{ stop: <v> }` or `{ data: <obj> }`; the compiled handler loops
  `if (result === undefined) continue; if ("stop" in result && result.stop) return;
  if ("data" in result) Object.assign(data, result.data);` and finally returns
  `await fn({ req, res, data })`.
* page flavor (`PageMiddlewareFactory.handler`): layers return
  `{ notFound/redirect/... }` or `{ data?, props? }`; the loop is
  `if ("notFound" in res || "redirect" in res) return res;
  if (res.data) Object.assign(data, res.data); if (res.props) Object.assign(props, res.props);`
  then the optional final handler's result is checked the same way and its
  `props` merged on top, and `{ props }` is returned.

JavaScript objects are modelled as association lists from string keys to
primitive values.  Values sitting in a `data`/`props` position are modelled as
`Option Obj` (`none` = the key holds `undefined`, `some o` = it holds object
`o`); for such values JavaScript truthiness coincides with being an object and
`Object.assign` with a non-object source is a no-op, so the presence-guarded
assign of the api flavor and the truthiness-guarded assign of the page flavor
reduce to the same function `applyField`.  A layer returning `undefined` in the
page flavor makes `"notFound" in res` raise a TypeError; this is modelled by
the `thrown` outcome.
-/

namespace Gisspy

/-- A primitive JavaScript value (enough to express values whose type changes
between layers; objects in terminal positions are opaque to the engine). -/
inductive Value where
  | str (s : String)
  | num (n : Int)
  | bool (b : Bool)
deriving DecidableEq, Repr

/-- JavaScript truthiness of a primitive value. -/
def truthy : Value → Bool
  | .str s => !(s == "")
  | .num n => !(n == 0)
  | .bool b => b

/-- A JavaScript object: an association list of string keys to values, with at
most one visible binding per key (JS object literals collapse duplicates). -/
abbrev Obj := List (String × Value)

/-- Property read `o[k]`: first binding wins. -/
def getKey : Obj → String → Option Value
  | [], _ => none
  | kv :: rest, k => if kv.1 = k then some kv.2 else getKey rest k

/-- Property write `o[k] = v`: update in place if the key exists, else append
(matches JS own-property insertion order). -/
def setKey : Obj → String → Value → Obj
  | [], k, v => [(k, v)]
  | kv :: rest, k, v => if kv.1 = k then (k, v) :: rest else kv :: setKey rest k v

/-- `Object.assign(target, source)`: copy each binding of `source` into
`target`, in order. -/
def objAssign (target source : Obj) : Obj :=
  source.foldl (fun acc kv => setKey acc kv.1 kv.2) target

/-- The keys of an object. -/
abbrev keys (o : Obj) : List String := o.map Prod.fst

/-- An object with one visible binding per key, as produced by a JS object
literal. -/
abbrev NodupKeys (o : Obj) : Prop := (o.map Prod.fst).Nodup

/-- A layer/handler result object, restricted to the keys the engine inspects:
`stop`, `notFound`, `redirect` (engine reads presence / truthiness only, value
kept for verbatim returns) and `data`, `props` (`Option (Option Obj)`: outer
`Option` is key presence, inner is undefined-vs-object). Other keys are never
read by the engine and are omitted. -/
structure ResObj where
  stop : Option Value
  notFound : Option Value
  redirect : Option Value
  data : Option (Option Obj)
  props : Option (Option Obj)
deriving DecidableEq, Repr

/-- The result object with no keys at all: `{}`. -/
def emptyRes : ResObj := ⟨none, none, none, none, none⟩

/-- `"stop" in result && result.stop` (api flavor, `src/api.ts` line 46). -/
def stopTruthy (r : ResObj) : Bool :=
  (r.stop.map truthy).getD false

/-- `"notFound" in res || "redirect" in res` (page flavor): terminal iff either
key is present, regardless of its value. -/
def isPageTerminal (r : ResObj) : Bool :=
  r.notFound.isSome || r.redirect.isSome

/-- Applying a `data`/`props` field to an accumulator.  Covers both source
forms: `if ("data" in result) Object.assign(data, result.data)` (api; presence
guard, but `Object.assign` with an `undefined` source is a no-op) and
`if (res.data) Object.assign(data, res.data)` (page; truthiness guard, and in
the undefined-or-object value domain truthy = object), as well as the
unguarded `Object.assign(props, await res.props)` of the page final handler. -/
def applyField (target : Obj) : Option (Option Obj) → Obj
  | some (some o) => objAssign target o
  | _ => target

/-! ### api flavor engine (`ApiMiddlewareFactory.handler`, src/api.ts 40-52) -/

/-- What an api layer invocation evaluates to: `undefined` or an object. -/
inductive ApiRes where
  | undef
  | obj (r : ResObj)
deriving DecidableEq, Repr

/-- An api layer, as a function of the `data` accumulator it is handed (the
request/response handles are opaque to the engine and are threaded separately
where a claim needs them). -/
abbrev ApiLayer := Obj → ApiRes

/-- Outcome of running the api layer loop: final `data`, the indices of the
layers that were invoked (in order), the `data` object each invoked layer
received, and whether `{ stop: truthy }` ended the loop. -/
structure ApiStepsOut where
  data : Obj
  invoked : List Nat
  inputs : List Obj
  stopped : Bool
deriving DecidableEq, Repr

/-- The api `for (const layer of this.layers)` loop, starting at layer index
`i` with accumulator `d`. -/
def apiSteps : List ApiLayer → Nat → Obj → ApiStepsOut
  | [], _, d => ⟨d, [], [], false⟩
  | l :: rest, i, d =>
    match l d with
    | .undef =>
      -- if (result === undefined) continue;
      let o := apiSteps rest (i + 1) d
      ⟨o.data, i :: o.invoked, d :: o.inputs, o.stopped⟩
    | .obj r =>
      if stopTruthy r then
        -- if ("stop" in result && result.stop) return;
        ⟨d, [i], [d], true⟩
      else
        -- if ("data" in result) Object.assign(data, result.data);
        let o := apiSteps rest (i + 1) (applyField d r.data)
        ⟨o.data, i :: o.invoked, d :: o.inputs, o.stopped⟩

/-- One invocation of a compiled api handler: the value it returns (`none` =
JS `undefined`), the invoked-layer trace, and the `data` the final handler
received (`none` when the final handler was never invoked). -/
structure ApiRun where
  result : Option Value
  invoked : List Nat
  inputs : List Obj
  fnArg : Option Obj
deriving DecidableEq, Repr

/-- The compiled api handler: fresh empty `data`, run the layer loop, then
`return await fn(...)` unless a layer stopped the request (then the JS
function returns `undefined`). -/
def apiHandler (layers : List ApiLayer) (fn : Obj → Option Value) : ApiRun :=
  let o := apiSteps layers 0 []
  if o.stopped then ⟨none, o.invoked, o.inputs, none⟩
  else ⟨fn o.data, o.invoked, o.inputs, some o.data⟩

/-- `use(layer)` builds a new factory holding `[...this.layers, layer]`. -/
def apiUse (b : List ApiLayer) (l : ApiLayer) : List ApiLayer := b ++ [l]

/-! ### page flavor engine (`PageMiddlewareFactory.handler`) -/

/-- What a page layer / final handler invocation evaluates to. -/
inductive PageRes where
  | undef
  | obj (r : ResObj)
deriving DecidableEq, Repr

/-- A page layer, as a function of the `data` and `props` accumulators. -/
abbrev PageLayer := Obj → Obj → PageRes

/-- Outcome tag of the page layer loop: ran to completion, returned a terminal
result object verbatim, or threw (TypeError from `"notFound" in undefined`). -/
inductive StepsOutcome where
  | ok
  | term (r : ResObj)
  | thrown
deriving DecidableEq, Repr

/-- Outcome of running the page layer loop. -/
structure PageStepsOut where
  data : Obj
  props : Obj
  invoked : List Nat
  inputs : List (Obj × Obj)
  outcome : StepsOutcome
deriving DecidableEq, Repr

/-- The page `for (const layer of this.layers)` loop, starting at index `i`. -/
def pageSteps : List PageLayer → Nat → Obj → Obj → PageStepsOut
  | [], _, d, p => ⟨d, p, [], [], .ok⟩
  | l :: rest, i, d, p =>
    match l d p with
    | .undef =>
      -- "notFound" in res with res === undefined: TypeError
      ⟨d, p, [i], [(d, p)], .thrown⟩
    | .obj r =>
      if isPageTerminal r then
        -- if ("notFound" in res || "redirect" in res) return res;
        ⟨d, p, [i], [(d, p)], .term r⟩
      else
        -- if (res.data) Object.assign(data, res.data);
        -- if (res.props) Object.assign(props, res.props);
        let o := pageSteps rest (i + 1) (applyField d r.data) (applyField p r.props)
        ⟨o.data, o.props, i :: o.invoked, (d, p) :: o.inputs, o.outcome⟩

/-- Result value of one invocation of a compiled page handler. -/
inductive PageOut where
  | terminal (r : ResObj)
  | propsOut (p : Obj)
  | thrown
deriving DecidableEq, Repr

/-- One invocation of a compiled page handler: its result, the invoked-layer
trace, and the `(data, props)` the final handler received (`none` when no
final handler ran). -/
structure PageRun where
  result : PageOut
  invoked : List Nat
  inputs : List (Obj × Obj)
  fnArg : Option (Obj × Obj)
deriving DecidableEq, Repr

/-- The compiled page handler: fresh empty `data` and `props`, run the layer
loop; on completion run the optional final handler, returning its terminal
result verbatim or `{ props }` after `Object.assign(props, await res.props)`;
with no final handler return `{ props }` directly. -/
def pageHandler (layers : List PageLayer) (fn : Option (Obj → Obj → PageRes)) : PageRun :=
  let o := pageSteps layers 0 [] []
  match o.outcome with
  | .thrown => ⟨.thrown, o.invoked, o.inputs, none⟩
  | .term r => ⟨.terminal r, o.invoked, o.inputs, none⟩
  | .ok =>
    match fn with
    | none => ⟨.propsOut o.props, o.invoked, o.inputs, none⟩
    | some f =>
      match f o.data o.props with
      | .undef => ⟨.thrown, o.invoked, o.inputs, some (o.data, o.props)⟩
      | .obj r =>
        if isPageTerminal r then
          ⟨.terminal r, o.invoked, o.inputs, some (o.data, o.props)⟩
        else
          ⟨.propsOut (applyField o.props r.props), o.invoked, o.inputs, some (o.data, o.props)⟩

/-- `use(layer)` of the page factory: `[...this.layers, layer]`. -/
def pageUse (b : List PageLayer) (l : PageLayer) : List PageLayer := b ++ [l]

/-! ### derived forms used by the claims -/

/-- api layers that each contribute a fixed `data` partial. -/
def dataLayers (os : List Obj) : List ApiLayer :=
  os.map (fun o => fun _ => ApiRes.obj ⟨none, none, none, some (some o), none⟩)

/-- page layers that each contribute a fixed `props` partial. -/
def propsLayers (os : List Obj) : List PageLayer :=
  os.map (fun o => fun _ _ => PageRes.obj ⟨none, none, none, none, some (some o)⟩)

/-- Layer `x` was invoked during a run of the handler compiled from `chain`:
some invoked index holds `x` in the chain. -/
def InvokedLayer (chain : List ApiLayer) (run : ApiRun) (x : ApiLayer) : Prop :=
  ∃ j ∈ run.invoked, chain[j]? = some x

/-- Page-flavor version of `InvokedLayer`. -/
def InvokedPageLayer (chain : List PageLayer) (run : PageRun) (x : PageLayer) : Prop :=
  ∃ j ∈ run.invoked, chain[j]? = some x

/-- A compiled api handler invoked with a per-request context `c`: the closure
captures the layer list; each invocation applies the layers to this request's
context.  Every invocation starts from a fresh empty accumulator. -/
def apiHandlerC {γ : Type} (layers : List (γ → Obj → ApiRes))
    (fn : γ → Obj → Option Value) (c : γ) : ApiRun :=
  apiHandler (layers.map (fun l => l c)) (fn c)

/-- A compiled page handler invoked with a per-request context `c`. -/
def pageHandlerC {γ : Type} (layers : List (γ → Obj → Obj → PageRes))
    (fn : Option (γ → Obj → Obj → PageRes)) (c : γ) : PageRun :=
  pageHandler (layers.map (fun l => l c)) (fn.map (fun f => fun d p => f c d p))

/-- One step of the last-write fold: a partial that carries `k` overwrites the
running value. -/
def lwStep (k : String) (a : Option Value) (o : Obj) : Option Value :=
  match getKey o k with
  | some v => some v
  | none => a

/-- Value of the last write to key `k` performed by the partials `os`, applied
in order (`none` when no partial sets `k`). -/
def lastWrite (os : List Obj) (k : String) : Option Value :=
  os.foldl (lwStep k) none

/-- First partial in `os` that carries key `k` determines the union's value
(well-defined content when contributions are disjoint). -/
def unionGet (os : List Obj) (k : String) : Option Value :=
  os.findSome? (fun o => getKey o k)

/-- Two partials contribute disjoint key sets. -/
abbrev DisjObjs (a b : Obj) : Prop :=
  ∀ k ∈ keys a, k ∉ keys b

/-! ### merge-engine lemmas -/

theorem getKey_setKey_self (o : Obj) (k : String) (v : Value) :
    getKey (setKey o k v) k = some v := by
  induction o with
  | nil => simp [setKey, getKey]
  | cons kv rest ih =>
    by_cases h : kv.1 = k
    · simp [setKey, getKey, h]
    · simp [setKey, getKey, h, ih]

theorem getKey_setKey_ne (o : Obj) (k k' : String) (v : Value) (h : k' ≠ k) :
    getKey (setKey o k v) k' = getKey o k' := by
  have h1 : ¬(k = k') := fun he => h he.symm
  induction o with
  | nil =>
    simp only [setKey, getKey]
    rw [if_neg h1]
  | cons kv rest ih =>
    simp only [setKey]
    by_cases hk : kv.1 = k
    · rw [if_pos hk]
      have h2 : ¬(kv.1 = k') := fun he => h1 (hk.symm.trans he)
      simp only [getKey]
      rw [if_neg h1, if_neg h2]
    · rw [if_neg hk]
      simp only [getKey]
      by_cases hk' : kv.1 = k'
      · rw [if_pos hk', if_pos hk']
      · rw [if_neg hk', if_neg hk', ih]

theorem objAssign_nil (t : Obj) : objAssign t [] = t := rfl

theorem objAssign_cons (t : Obj) (kv : String × Value) (s : Obj) :
    objAssign t (kv :: s) = objAssign (setKey t kv.1 kv.2) s := rfl

theorem getKey_eq_none_iff (o : Obj) (k : String) :
    getKey o k = none ↔ k ∉ keys o := by
  induction o with
  | nil => simp [getKey, keys]
  | cons kv rest ih =>
    simp only [getKey, keys, List.map_cons, List.mem_cons]
    by_cases h : kv.1 = k
    · simp [h]
    · rw [if_neg h]
      simp only [keys] at ih
      rw [ih]
      constructor
      · intro hn hor
        cases hor with
        | inl he => exact h he.symm
        | inr hm => exact hn hm
      · intro hn hm
        exact hn (Or.inr hm)

/-- Keys absent from the assign source are untouched. -/
theorem getKey_objAssign_of_none (t s : Obj) (k : String)
    (h : getKey s k = none) : getKey (objAssign t s) k = getKey t k := by
  induction s generalizing t with
  | nil => rfl
  | cons kv rest ih =>
    rw [objAssign_cons]
    simp only [getKey] at h
    by_cases hk : kv.1 = k
    · simp [hk] at h
    · rw [ih _ (by simpa [hk] using h), getKey_setKey_ne _ _ _ _ (fun he => hk he.symm)]

/-- Keys present in the assign source overwrite the target's binding. -/
theorem getKey_objAssign_of_some (t s : Obj) (k : String) (v : Value)
    (hnd : NodupKeys s) (h : getKey s k = some v) :
    getKey (objAssign t s) k = some v := by
  induction s generalizing t with
  | nil => simp [getKey] at h
  | cons kv rest ih =>
    rw [objAssign_cons]
    simp only [getKey] at h
    simp only [NodupKeys, List.map_cons, List.nodup_cons] at hnd
    by_cases hk : kv.1 = k
    · simp only [hk, if_pos rfl] at h
      cases h
      have hrest : getKey rest k = none := by
        rw [getKey_eq_none_iff]
        intro hmem
        exact hnd.1 (hk ▸ hmem)
      rw [getKey_objAssign_of_none _ _ _ hrest, hk, getKey_setKey_self]
    · rw [if_neg hk] at h
      exact ih (setKey t kv.1 kv.2) hnd.2 h

/-- The target's bindings are never deleted by an assign. -/
theorem getKey_objAssign_isSome (t s : Obj) (k : String)
    (h : (getKey t k).isSome) : ((getKey (objAssign t s) k)).isSome := by
  induction s generalizing t with
  | nil => exact h
  | cons kv rest ih =>
    rw [objAssign_cons]
    apply ih
    by_cases hk : k = kv.1
    · rw [hk, getKey_setKey_self]; rfl
    · rw [getKey_setKey_ne _ _ _ _ hk]; exact h

theorem lastWrite_nil (k : String) : lastWrite [] k = none := rfl

/-- The `lastWrite` fold, started from an arbitrary accumulator. -/
theorem lastWrite_foldl (os : List Obj) (k : String) (acc : Option Value) :
    os.foldl (lwStep k) acc =
      (match lastWrite os k with
        | some v => some v
        | none => acc) := by
  induction os generalizing acc with
  | nil => rfl
  | cons o rest ih =>
    rw [List.foldl_cons, ih (lwStep k acc o)]
    have h2 : lastWrite (o :: rest) k =
        (match lastWrite rest k with
          | some v => some v
          | none => lwStep k none o) := by
      show List.foldl _ _ rest = _
      rw [ih (lwStep k none o)]
    rw [h2]
    cases hr : lastWrite rest k with
    | some v => rfl
    | none =>
      simp only [lwStep]
      cases hg : getKey o k with
      | some w => rfl
      | none => rfl

/-- Unfolding `lastWrite` over a cons cell. -/
theorem lastWrite_cons (o : Obj) (os : List Obj) (k : String) :
    lastWrite (o :: os) k =
      (match lastWrite os k with
        | some v => some v
        | none => getKey o k) := by
  show List.foldl _ _ os = _
  rw [lastWrite_foldl]
  cases lastWrite os k with
  | some v => rfl
  | none =>
    simp only [lwStep]
    cases getKey o k with
    | some w => rfl
    | none => rfl

/-- Looking up a key after applying a sequence of partials in order: the last
partial that wrote the key wins; otherwise the starting object's binding. -/
theorem getKey_foldl_objAssign (os : List Obj) (t : Obj) (k : String)
    (h : ∀ o ∈ os, NodupKeys o) :
    getKey (os.foldl objAssign t) k =
      (match lastWrite os k with
        | some v => some v
        | none => getKey t k) := by
  induction os generalizing t with
  | nil => rfl
  | cons o rest ih =>
    rw [List.foldl_cons, ih (objAssign t o) (fun o2 hm => h o2 (List.mem_cons_of_mem _ hm)),
      lastWrite_cons]
    cases hr : lastWrite rest k with
    | some v => rfl
    | none =>
      cases hg : getKey o k with
      | some w => exact getKey_objAssign_of_some t o k w (h o (List.mem_cons_self _ _)) hg
      | none => exact getKey_objAssign_of_none t o k hg

/-- Running the api loop over pure data-contributing layers folds the
contributions into the accumulator and never stops. -/
theorem apiSteps_dataLayers (os : List Obj) (i : Nat) (d : Obj) :
    (apiSteps (dataLayers os) i d).data = os.foldl objAssign d ∧
      (apiSteps (dataLayers os) i d).stopped = false := by
  induction os generalizing i d with
  | nil => exact ⟨rfl, rfl⟩
  | cons o rest ih =>
    simp only [dataLayers, List.map_cons, apiSteps, stopTruthy, Option.map_none',
      Option.getD_none, Bool.false_eq_true, if_false, applyField, List.foldl_cons]
    exact ih (i + 1) (objAssign d o)

/-- Running the page loop over pure props-contributing layers folds the
contributions into `props`, leaves `data` alone, and completes. -/
theorem pageSteps_propsLayers (os : List Obj) (i : Nat) (d p : Obj) :
    (pageSteps (propsLayers os) i d p).props = os.foldl objAssign p ∧
      (pageSteps (propsLayers os) i d p).data = d ∧
      (pageSteps (propsLayers os) i d p).outcome = .ok := by
  induction os generalizing i d p with
  | nil => exact ⟨rfl, rfl, rfl⟩
  | cons o rest ih =>
    simp only [propsLayers, List.map_cons, pageSteps, isPageTerminal, Option.isSome_none,
      Bool.or_self, Bool.false_eq_true, if_false, applyField, List.foldl_cons]
    exact ih (i + 1) d (objAssign p o)

/-- Splitting the api loop at a clean prefix: if the prefix does not stop, the
whole loop runs the prefix and then the suffix from the prefix's final data. -/
theorem apiSteps_append (pre post : List ApiLayer) (i : Nat) (d : Obj)
    (h : (apiSteps pre i d).stopped = false) :
    apiSteps (pre ++ post) i d =
      ⟨(apiSteps post (i + pre.length) (apiSteps pre i d).data).data,
       (apiSteps pre i d).invoked ++
         (apiSteps post (i + pre.length) (apiSteps pre i d).data).invoked,
       (apiSteps pre i d).inputs ++
         (apiSteps post (i + pre.length) (apiSteps pre i d).data).inputs,
       (apiSteps post (i + pre.length) (apiSteps pre i d).data).stopped⟩ := by
  induction pre generalizing i d with
  | nil => simp [apiSteps]
  | cons l rest ih =>
    have harith : i + (rest.length + 1) = (i + 1) + rest.length := by omega
    cases hl : l d with
    | undef =>
      have h' : (apiSteps rest (i + 1) d).stopped = false := by
        simpa [apiSteps, hl] using h
      simp only [List.cons_append, apiSteps, hl, List.length_cons, harith, List.append_eq,
        ih (i + 1) d h']
    | obj r =>
      cases hs : stopTruthy r with
      | true =>
        exfalso
        simp [apiSteps, hl, hs] at h
      | false =>
        have h' : (apiSteps rest (i + 1) (applyField d r.data)).stopped = false := by
          simpa [apiSteps, hl, hs] using h
        simp only [List.cons_append, apiSteps, hl, hs, Bool.false_eq_true, if_false,
          List.length_cons, harith, List.append_eq, ih (i + 1) (applyField d r.data) h']

/-- Splitting the page loop at a clean prefix. -/
theorem pageSteps_append (pre post : List PageLayer) (i : Nat) (d p : Obj)
    (h : (pageSteps pre i d p).outcome = .ok) :
    pageSteps (pre ++ post) i d p =
      ⟨(pageSteps post (i + pre.length) (pageSteps pre i d p).data (pageSteps pre i d p).props).data,
       (pageSteps post (i + pre.length) (pageSteps pre i d p).data (pageSteps pre i d p).props).props,
       (pageSteps pre i d p).invoked ++
         (pageSteps post (i + pre.length) (pageSteps pre i d p).data (pageSteps pre i d p).props).invoked,
       (pageSteps pre i d p).inputs ++
         (pageSteps post (i + pre.length) (pageSteps pre i d p).data (pageSteps pre i d p).props).inputs,
       (pageSteps post (i + pre.length) (pageSteps pre i d p).data (pageSteps pre i d p).props).outcome⟩ := by
  induction pre generalizing i d p with
  | nil => simp [pageSteps]
  | cons l rest ih =>
    have harith : i + (rest.length + 1) = (i + 1) + rest.length := by omega
    cases hl : l d p with
    | undef =>
      exfalso
      simp [pageSteps, hl] at h
    | obj r =>
      cases ht : isPageTerminal r with
      | true =>
        exfalso
        simp [pageSteps, hl, ht] at h
      | false =>
        have h' : (pageSteps rest (i + 1) (applyField d r.data) (applyField p r.props)).outcome
            = .ok := by
          simpa [pageSteps, hl, ht] using h
        simp only [List.cons_append, pageSteps, hl, ht, Bool.false_eq_true, if_false,
          List.length_cons, harith, List.append_eq,
          ih (i + 1) (applyField d r.data) (applyField p r.props) h']

/-- Every invoked index lies in the window of the loop's layer list. -/
theorem apiSteps_invoked_bounds (layers : List ApiLayer) (i : Nat) (d : Obj) :
    ∀ j ∈ (apiSteps layers i d).invoked, i ≤ j ∧ j < i + layers.length := by
  induction layers generalizing i d with
  | nil => intro j hj; simp [apiSteps] at hj
  | cons l rest ih =>
    intro j hj
    cases hl : l d with
    | undef =>
      simp only [apiSteps, hl, List.mem_cons] at hj
      cases hj with
      | inl he => subst he; simp
      | inr hm =>
        have := ih (i + 1) d j hm
        simp only [List.length_cons]
        omega
    | obj r =>
      cases hs : stopTruthy r with
      | true =>
        simp only [apiSteps, hl, hs, if_true, List.mem_singleton] at hj
        subst hj; simp
      | false =>
        simp only [apiSteps, hl, hs, Bool.false_eq_true, if_false, List.mem_cons] at hj
        cases hj with
        | inl he => subst he; simp
        | inr hm =>
          have := ih (i + 1) (applyField d r.data) j hm
          simp only [List.length_cons]
          omega

/-- Every invoked index lies in the window of the loop's layer list. -/
theorem pageSteps_invoked_bounds (layers : List PageLayer) (i : Nat) (d p : Obj) :
    ∀ j ∈ (pageSteps layers i d p).invoked, i ≤ j ∧ j < i + layers.length := by
  induction layers generalizing i d p with
  | nil => intro j hj; simp [pageSteps] at hj
  | cons l rest ih =>
    intro j hj
    cases hl : l d p with
    | undef =>
      simp only [pageSteps, hl, List.mem_singleton] at hj
      subst hj; simp
    | obj r =>
      cases ht : isPageTerminal r with
      | true =>
        simp only [pageSteps, hl, ht, if_true, List.mem_singleton] at hj
        subst hj; simp
      | false =>
        simp only [pageSteps, hl, ht, Bool.false_eq_true, if_false, List.mem_cons] at hj
        cases hj with
        | inl he => subst he; simp
        | inr hm =>
          have := ih (i + 1) (applyField d r.data) (applyField p r.props) j hm
          simp only [List.length_cons]
          omega

/-! ### Claims -/

/-- C1: for every chain, if layer `i` returns a terminal outcome (a truthy
`stop` in the api flavor; a result object carrying `notFound` or `redirect`
in the page flavor), then layers `i+1..n` and the final handler are never
invoked, and the compiled handler's result is that terminal outcome itself
(`undefined` in the api flavor, the layer's result object verbatim in the
page flavor), with none of the previously accumulated data/props merged into
it. -/
theorem claim1_terminal_short_circuit :
    (∀ (pre post : List ApiLayer) (l : ApiLayer) (fn : Obj → Option Value) (r : ResObj),
      (apiSteps pre 0 []).stopped = false →
      l (apiSteps pre 0 []).data = ApiRes.obj r →
      stopTruthy r = true →
      (apiHandler (pre ++ l :: post) fn).result = none ∧
        (apiHandler (pre ++ l :: post) fn).fnArg = none ∧
        (apiHandler (pre ++ l :: post) fn).invoked
          = (apiSteps pre 0 []).invoked ++ [pre.length] ∧
        ∀ j ∈ (apiHandler (pre ++ l :: post) fn).invoked, j ≤ pre.length) ∧
    (∀ (pre post : List PageLayer) (l : PageLayer)
        (fn : Option (Obj → Obj → PageRes)) (r : ResObj),
      (pageSteps pre 0 [] []).outcome = StepsOutcome.ok →
      l (pageSteps pre 0 [] []).data (pageSteps pre 0 [] []).props = PageRes.obj r →
      isPageTerminal r = true →
      (pageHandler (pre ++ l :: post) fn).result = PageOut.terminal r ∧
        (pageHandler (pre ++ l :: post) fn).fnArg = none ∧
        (pageHandler (pre ++ l :: post) fn).invoked
          = (pageSteps pre 0 [] []).invoked ++ [pre.length] ∧
        ∀ j ∈ (pageHandler (pre ++ l :: post) fn).invoked, j ≤ pre.length) := by
  constructor
  · intro pre post l fn r h hl hs
    have happ := apiSteps_append pre (l :: post) 0 [] h
    have hstep : apiSteps (l :: post) (0 + pre.length) (apiSteps pre 0 []).data
        = ⟨(apiSteps pre 0 []).data, [0 + pre.length], [(apiSteps pre 0 []).data], true⟩ := by
      simp [apiSteps, hl, hs]
    rw [hstep] at happ
    have hrun : apiHandler (pre ++ l :: post) fn
        = ⟨none, (apiSteps pre 0 []).invoked ++ [pre.length],
            (apiSteps pre 0 []).inputs ++ [(apiSteps pre 0 []).data], none⟩ := by
      simp [apiHandler, happ]
    refine ⟨by rw [hrun], by rw [hrun], by rw [hrun], ?_⟩
    rw [hrun]
    intro j hj
    rcases List.mem_append.mp hj with hj1 | hj2
    · have := apiSteps_invoked_bounds pre 0 [] j hj1
      omega
    · simp only [List.mem_singleton] at hj2
      omega
  · intro pre post l fn r h hl ht
    have happ := pageSteps_append pre (l :: post) 0 [] [] h
    have hstep : pageSteps (l :: post) (0 + pre.length)
          (pageSteps pre 0 [] []).data (pageSteps pre 0 [] []).props
        = ⟨(pageSteps pre 0 [] []).data, (pageSteps pre 0 [] []).props,
            [0 + pre.length], [((pageSteps pre 0 [] []).data, (pageSteps pre 0 [] []).props)],
            StepsOutcome.term r⟩ := by
      simp [pageSteps, hl, ht]
    rw [hstep] at happ
    have hrun : pageHandler (pre ++ l :: post) fn
        = ⟨PageOut.terminal r, (pageSteps pre 0 [] []).invoked ++ [pre.length],
            (pageSteps pre 0 [] []).inputs ++
              [((pageSteps pre 0 [] []).data, (pageSteps pre 0 [] []).props)], none⟩ := by
      simp [pageHandler, happ]
    refine ⟨by rw [hrun], by rw [hrun], by rw [hrun], ?_⟩
    rw [hrun]
    intro j hj
    rcases List.mem_append.mp hj with hj1 | hj2
    · have := pageSteps_invoked_bounds pre 0 [] [] j hj1
      omega
    · simp only [List.mem_singleton] at hj2
      omega

/-- C1 witness: a concrete two-flavor instance.  Api: a data layer, then
`{ stop: true }`, then a further layer; the run returns `undefined`, never
reaches the final handler, and invokes only layers 0 and 1.  Page: a props
layer, then `{ notFound: true }`; the run returns the terminal object
verbatim. -/
theorem claim1_terminal_short_circuit_witness :
    ((apiHandler
        ((fun _ => ApiRes.obj ⟨none, none, none, some (some [("a", Value.str "x")]), none⟩) ::
          (fun _ => ApiRes.obj ⟨some (Value.bool true), none, none, none, none⟩) ::
            [fun _ => ApiRes.undef]) (fun _ => some (Value.num 7))).result = none ∧
      (apiHandler
        ((fun _ => ApiRes.obj ⟨none, none, none, some (some [("a", Value.str "x")]), none⟩) ::
          (fun _ => ApiRes.obj ⟨some (Value.bool true), none, none, none, none⟩) ::
            [fun _ => ApiRes.undef]) (fun _ => some (Value.num 7))).fnArg = none ∧
      (apiHandler
        ((fun _ => ApiRes.obj ⟨none, none, none, some (some [("a", Value.str "x")]), none⟩) ::
          (fun _ => ApiRes.obj ⟨some (Value.bool true), none, none, none, none⟩) ::
            [fun _ => ApiRes.undef]) (fun _ => some (Value.num 7))).invoked = [0, 1]) ∧
    ((pageHandler
        ((fun _ _ => PageRes.obj ⟨none, none, none, none, some (some [("p", Value.num 1)])⟩) ::
          [fun _ _ => PageRes.obj ⟨none, some (Value.bool true), none, none, none⟩])
        (some (fun _ _ => PageRes.obj ⟨none, none, none, none, some (some [])⟩))).result
        = PageOut.terminal ⟨none, some (Value.bool true), none, none, none⟩ ∧
      (pageHandler
        ((fun _ _ => PageRes.obj ⟨none, none, none, none, some (some [("p", Value.num 1)])⟩) ::
          [fun _ _ => PageRes.obj ⟨none, some (Value.bool true), none, none, none⟩])
        (some (fun _ _ => PageRes.obj ⟨none, none, none, none, some (some [])⟩))).fnArg = none) := by
  constructor
  · have h := claim1_terminal_short_circuit.1
      [fun _ => ApiRes.obj ⟨none, none, none, some (some [("a", Value.str "x")]), none⟩]
      [fun _ => ApiRes.undef]
      (fun _ => ApiRes.obj ⟨some (Value.bool true), none, none, none, none⟩)
      (fun _ => some (Value.num 7))
      ⟨some (Value.bool true), none, none, none, none⟩
      rfl rfl rfl
    exact ⟨h.1, h.2.1, h.2.2.1.trans rfl⟩
  · have h := claim1_terminal_short_circuit.2
      [fun _ _ => PageRes.obj ⟨none, none, none, none, some (some [("p", Value.num 1)])⟩]
      []
      (fun _ _ => PageRes.obj ⟨none, some (Value.bool true), none, none, none⟩)
      (some (fun _ _ => PageRes.obj ⟨none, none, none, none, some (some [])⟩))
      ⟨none, some (Value.bool true), none, none, none⟩
      rfl rfl rfl
    exact ⟨h.1, h.2.1⟩

/-- C2: applying a layer's returned partial is a shallow merge: every key
present in the partial overwrites that key in the accumulator (the value's
type may change), keys absent from the partial are unchanged, no key is ever
deleted, and across a chain the final value of a key is the one written by
the last layer (in chain order) that set it — in both the api `data`
accumulator and the page `props` accumulator. -/
theorem claim2_shallow_merge :
    (∀ (t s : Obj) (k : String) (v : Value), NodupKeys s → getKey s k = some v →
      getKey (objAssign t s) k = some v) ∧
    (∀ (t s : Obj) (k : String), getKey s k = none →
      getKey (objAssign t s) k = getKey t k) ∧
    (∀ (t s : Obj) (k : String), (getKey t k).isSome → (getKey (objAssign t s) k).isSome) ∧
    (∀ (os : List Obj) (k : String), (∀ o ∈ os, NodupKeys o) →
      getKey (apiSteps (dataLayers os) 0 []).data k = lastWrite os k) ∧
    (∀ (os : List Obj) (k : String), (∀ o ∈ os, NodupKeys o) →
      getKey (pageSteps (propsLayers os) 0 [] []).props k = lastWrite os k) := by
  refine ⟨?_, ?_, ?_, ?_, ?_⟩
  · intro t s k v hnd h
    exact getKey_objAssign_of_some t s k v hnd h
  · intro t s k h
    exact getKey_objAssign_of_none t s k h
  · intro t s k h
    exact getKey_objAssign_isSome t s k h
  · intro os k h
    rw [(apiSteps_dataLayers os 0 []).1, getKey_foldl_objAssign os [] k h]
    cases lastWrite os k with
    | some v => rfl
    | none => rfl
  · intro os k h
    rw [(pageSteps_propsLayers os 0 [] []).1, getKey_foldl_objAssign os [] k h]
    cases lastWrite os k with
    | some v => rfl
    | none => rfl

/-- C2 witness: overwriting `"a"` with a value of a different type (string
then number) while leaving `"b"` untouched, in a single merge and across a
two-layer api chain and a two-layer page chain. -/
theorem claim2_shallow_merge_witness :
    getKey (objAssign [("a", Value.str "a1"), ("b", Value.bool true)]
      [("a", Value.num 2)]) "a" = some (Value.num 2) ∧
    getKey (objAssign [("a", Value.str "a1"), ("b", Value.bool true)]
      [("a", Value.num 2)]) "b" = getKey [("a", Value.str "a1"), ("b", Value.bool true)] "b" ∧
    (getKey (objAssign [("a", Value.str "a1"), ("b", Value.bool true)]
      [("a", Value.num 2)]) "b").isSome = true ∧
    getKey (apiSteps (dataLayers [[("a", Value.str "a1")], [("a", Value.num 2)]]) 0 []).data "a"
      = some (Value.num 2) ∧
    getKey (pageSteps (propsLayers [[("a", Value.str "a1")], [("a", Value.num 2)]]) 0 [] []).props "a"
      = some (Value.num 2) := by
  refine ⟨?_, ?_, ?_, ?_, ?_⟩
  · exact claim2_shallow_merge.1 [("a", Value.str "a1"), ("b", Value.bool true)]
      [("a", Value.num 2)] "a" (Value.num 2) (by decide) rfl
  · exact claim2_shallow_merge.2.1 [("a", Value.str "a1"), ("b", Value.bool true)]
      [("a", Value.num 2)] "b" rfl
  · exact claim2_shallow_merge.2.2.1 [("a", Value.str "a1"), ("b", Value.bool true)]
      [("a", Value.num 2)] "b" rfl
  · exact (claim2_shallow_merge.2.2.2.1 [[("a", Value.str "a1")], [("a", Value.num 2)]] "a"
      (by decide)).trans rfl
  · exact (claim2_shallow_merge.2.2.2.2 [[("a", Value.str "a1")], [("a", Value.num 2)]] "a"
      (by decide)).trans rfl

/-- C3: `use(x)` produces a new chain that keeps the old chain as an
unmodified prefix and appends `x` at the end, and handlers compiled from the
two independent extensions `B.use(x)` and `B.use(y)` each run only their own
branch's layers: `x` is never invoked in a run of `B.use(y)`'s handler and
`y` is never invoked in a run of `B.use(x)`'s handler. -/
theorem claim3_branch_isolation :
    (∀ (b : List ApiLayer) (x : ApiLayer),
      (apiUse b x).length = b.length + 1 ∧
        (apiUse b x).take b.length = b ∧
        (apiUse b x)[b.length]? = some x) ∧
    (∀ (b : List ApiLayer) (x y : ApiLayer) (fn : Obj → Option Value),
      x ∉ b → x ≠ y → ¬InvokedLayer (apiUse b y) (apiHandler (apiUse b y) fn) x) ∧
    (∀ (b : List ApiLayer) (x y : ApiLayer) (fn : Obj → Option Value),
      y ∉ b → y ≠ x → ¬InvokedLayer (apiUse b x) (apiHandler (apiUse b x) fn) y) ∧
    (∀ (b : List PageLayer) (x : PageLayer),
      (pageUse b x).length = b.length + 1 ∧
        (pageUse b x).take b.length = b ∧
        (pageUse b x)[b.length]? = some x) ∧
    (∀ (b : List PageLayer) (x y : PageLayer) (fn : Option (Obj → Obj → PageRes)),
      x ∉ b → x ≠ y → ¬InvokedPageLayer (pageUse b y) (pageHandler (pageUse b y) fn) x) ∧
    (∀ (b : List PageLayer) (x y : PageLayer) (fn : Option (Obj → Obj → PageRes)),
      y ∉ b → y ≠ x → ¬InvokedPageLayer (pageUse b x) (pageHandler (pageUse b x) fn) y) := by
  have hmemApi : ∀ (b : List ApiLayer) (z w : ApiLayer) (run : ApiRun),
      z ∉ b → z ≠ w → ¬InvokedLayer (apiUse b w) run z := by
    intro b z w run hzb hzw ⟨j, _, hget⟩
    have hz := List.getElem?_mem hget
    rcases List.mem_append.mp hz with h1 | h2
    · exact hzb h1
    · exact hzw (List.mem_singleton.mp h2)
  have hmemPage : ∀ (b : List PageLayer) (z w : PageLayer) (run : PageRun),
      z ∉ b → z ≠ w → ¬InvokedPageLayer (pageUse b w) run z := by
    intro b z w run hzb hzw ⟨j, _, hget⟩
    have hz := List.getElem?_mem hget
    rcases List.mem_append.mp hz with h1 | h2
    · exact hzb h1
    · exact hzw (List.mem_singleton.mp h2)
  refine ⟨?_, ?_, ?_, ?_, ?_, ?_⟩
  · intro b x
    refine ⟨by simp [apiUse], by simp [apiUse], ?_⟩
    simp [apiUse]
  · intro b x y fn hxb hxy
    exact hmemApi b x y _ hxb hxy
  · intro b x y fn hyb hyx
    exact hmemApi b y x _ hyb hyx
  · intro b x
    refine ⟨by simp [pageUse], by simp [pageUse], ?_⟩
    simp [pageUse]
  · intro b x y fn hxb hxy
    exact hmemPage b x y _ hxb hxy
  · intro b x y fn hyb hyx
    exact hmemPage b y x _ hyb hyx

/-- C3 witness: a concrete base chain extended along two branches; the chain
contract evaluates on it, and the sibling branch's layer is not invoked. -/
theorem claim3_branch_isolation_witness :
    ((apiUse [fun _ => ApiRes.undef] (fun _ => ApiRes.obj emptyRes)).length = 2 ∧
      (apiUse [fun _ => ApiRes.undef] (fun _ => ApiRes.obj emptyRes)).take 1
        = [fun _ => ApiRes.undef] ∧
      (apiUse [fun _ => ApiRes.undef] (fun _ => ApiRes.obj emptyRes))[1]?
        = some (fun _ => ApiRes.obj emptyRes)) ∧
    ¬InvokedLayer (apiUse [] (fun _ => ApiRes.obj emptyRes))
      (apiHandler (apiUse [] (fun _ => ApiRes.obj emptyRes)) (fun _ => none))
      (fun _ => ApiRes.obj ⟨some (Value.bool true), none, none, none, none⟩) ∧
    ¬InvokedPageLayer (pageUse [] (fun _ _ => PageRes.obj emptyRes))
      (pageHandler (pageUse [] (fun _ _ => PageRes.obj emptyRes)) none)
      (fun _ _ => PageRes.obj ⟨none, some (Value.bool true), none, none, none⟩) := by
  have hne1 : (fun _ => ApiRes.obj ⟨some (Value.bool true), none, none, none, none⟩ : ApiLayer)
      ≠ (fun _ => ApiRes.obj emptyRes) := by
    intro h
    have h2 := congrFun h []
    simp [emptyRes] at h2
  have hne2 : (fun _ _ => PageRes.obj ⟨none, some (Value.bool true), none, none, none⟩ : PageLayer)
      ≠ (fun _ _ => PageRes.obj emptyRes) := by
    intro h
    have h2 := congrFun (congrFun h []) []
    simp [emptyRes] at h2
  refine ⟨?_, ?_, ?_⟩
  · exact claim3_branch_isolation.1 [fun _ => ApiRes.undef] (fun _ => ApiRes.obj emptyRes)
  · exact claim3_branch_isolation.2.1 [] _ _ (fun _ => none) (by simp) hne1
  · exact claim3_branch_isolation.2.2.2.2.1 [] _ _ none (by simp) hne2

/-- C4 counterexample: in the page flavor a layer returning `undefined` does
NOT advance to the next layer: the run aborts with a thrown TypeError
(`"notFound" in res` with `res === undefined`), layer 1 is never invoked, and
no result object is produced — refuting the claim that in both flavors a
void/undefined layer result leaves the accumulators unchanged and execution
advances. -/
theorem claim4_empty_advance_counterexample :
    (pageHandler ((fun _ _ => PageRes.undef) ::
        [fun _ _ => PageRes.obj ⟨none, none, none, some (some [("a", Value.num 1)]), none⟩])
      none).result = PageOut.thrown ∧
    (pageHandler ((fun _ _ => PageRes.undef) ::
        [fun _ _ => PageRes.obj ⟨none, none, none, some (some [("a", Value.num 1)]), none⟩])
      none).invoked = [0] ∧
    1 ∉ (pageHandler ((fun _ _ => PageRes.undef) ::
        [fun _ _ => PageRes.obj ⟨none, none, none, some (some [("a", Value.num 1)]), none⟩])
      none).invoked :=
  ⟨rfl, rfl, by decide⟩

/-- C4 amended: in the api flavor a layer result of `undefined` or of an
object with no `data` and no terminal tag leaves the accumulator unchanged
and execution advances to the next layer; in the page flavor the same holds
for an empty result object, while a page layer returning void/undefined
aborts the run with a thrown TypeError and invokes no further layer. -/
theorem claim4_empty_advance_amended :
    (∀ (l : ApiLayer) (rest : List ApiLayer) (i : Nat) (d : Obj),
      (l d = ApiRes.undef ∨ l d = ApiRes.obj emptyRes) →
      apiSteps (l :: rest) i d =
        ⟨(apiSteps rest (i + 1) d).data, i :: (apiSteps rest (i + 1) d).invoked,
          d :: (apiSteps rest (i + 1) d).inputs, (apiSteps rest (i + 1) d).stopped⟩) ∧
    (∀ (l : PageLayer) (rest : List PageLayer) (i : Nat) (d p : Obj),
      l d p = PageRes.obj emptyRes →
      pageSteps (l :: rest) i d p =
        ⟨(pageSteps rest (i + 1) d p).data, (pageSteps rest (i + 1) d p).props,
          i :: (pageSteps rest (i + 1) d p).invoked,
          (d, p) :: (pageSteps rest (i + 1) d p).inputs,
          (pageSteps rest (i + 1) d p).outcome⟩) ∧
    (∀ (l : PageLayer) (rest : List PageLayer) (i : Nat) (d p : Obj),
      l d p = PageRes.undef →
      pageSteps (l :: rest) i d p = ⟨d, p, [i], [(d, p)], StepsOutcome.thrown⟩) := by
  refine ⟨?_, ?_, ?_⟩
  · intro l rest i d h
    cases h with
    | inl h => simp [apiSteps, h]
    | inr h => simp [apiSteps, h, stopTruthy, emptyRes, applyField]
  · intro l rest i d p h
    simp [pageSteps, h, isPageTerminal, emptyRes, applyField]
  · intro l rest i d p h
    simp [pageSteps, h]

/-- C4 amended witness: concrete chains around an `undefined`-returning api
layer, an `{}`-returning page layer and an `undefined`-returning page
layer. -/
theorem claim4_empty_advance_amended_witness :
    apiSteps ((fun _ => ApiRes.undef) ::
        [fun _ => ApiRes.obj ⟨none, none, none, some (some [("a", Value.num 1)]), none⟩]) 0 [] =
      ⟨(apiSteps [fun _ => ApiRes.obj ⟨none, none, none, some (some [("a", Value.num 1)]), none⟩]
          1 []).data,
        0 :: (apiSteps [fun _ => ApiRes.obj ⟨none, none, none, some (some [("a", Value.num 1)]), none⟩]
          1 []).invoked,
        [] :: (apiSteps [fun _ => ApiRes.obj ⟨none, none, none, some (some [("a", Value.num 1)]), none⟩]
          1 []).inputs,
        (apiSteps [fun _ => ApiRes.obj ⟨none, none, none, some (some [("a", Value.num 1)]), none⟩]
          1 []).stopped⟩ ∧
    pageSteps ((fun _ _ => PageRes.obj emptyRes) :: []) 0 [] [] =
      ⟨(pageSteps [] 1 [] []).data, (pageSteps [] 1 [] []).props,
        0 :: (pageSteps [] 1 [] []).invoked, ([], []) :: (pageSteps [] 1 [] []).inputs,
        (pageSteps [] 1 [] []).outcome⟩ ∧
    pageSteps ((fun _ _ => PageRes.undef) :: []) 0 [] [] =
      ⟨[], [], [0], [([], [])], StepsOutcome.thrown⟩ :=
  ⟨claim4_empty_advance_amended.1 _ _ 0 [] (Or.inl rfl),
    claim4_empty_advance_amended.2.1 _ [] 0 [] [] rfl,
    claim4_empty_advance_amended.2.2 _ [] 0 [] [] rfl⟩

/-- C5: in the page flavor, when the final handler returns a non-terminal
result its `props` are merged on top of the layer-accumulated `props` (for a
shared key the final handler's value wins, absent keys keep the layer value)
and the compiled handler's result is `{ props }` of the combined map; in the
api flavor the final handler's return value never modifies the `data`
accumulator or the layer trace. -/
theorem claim5_final_handler_props :
    (∀ (layers : List PageLayer) (f : Obj → Obj → PageRes) (r : ResObj),
      (pageSteps layers 0 [] []).outcome = StepsOutcome.ok →
      f (pageSteps layers 0 [] []).data (pageSteps layers 0 [] []).props = PageRes.obj r →
      isPageTerminal r = false →
      (pageHandler layers (some f)).result
        = PageOut.propsOut (applyField (pageSteps layers 0 [] []).props r.props)) ∧
    (∀ (p q : Obj) (k : String) (v : Value), NodupKeys q → getKey q k = some v →
      getKey (applyField p (some (some q))) k = some v) ∧
    (∀ (p q : Obj) (k : String), getKey q k = none →
      getKey (applyField p (some (some q))) k = getKey p k) ∧
    (∀ (layers : List ApiLayer) (f g : Obj → Option Value),
      (apiHandler layers f).fnArg = (apiHandler layers g).fnArg ∧
        (apiHandler layers f).invoked = (apiHandler layers g).invoked ∧
        (apiHandler layers f).inputs = (apiHandler layers g).inputs) := by
  refine ⟨?_, ?_, ?_, ?_⟩
  · intro layers f r h hf ht
    simp [pageHandler, h, hf, ht]
  · intro p q k v hnd h
    exact getKey_objAssign_of_some p q k v hnd h
  · intro p q k h
    exact getKey_objAssign_of_none p q k h
  · intro layers f g
    cases hs : (apiSteps layers 0 []).stopped <;> simp [apiHandler, hs]

/-- C5 witness: a layer contributes `props {a: "a1"}` and the final handler
returns `props {a: "a2", b: "b"}`: the result is `{ props: {a: "a2", b: "b"} }`
(handler wins on `a`); in the api flavor two different final handlers see the
same accumulated data. -/
theorem claim5_final_handler_props_witness :
    (pageHandler [fun _ _ => PageRes.obj ⟨none, none, none, none, some (some [("a", Value.str "a1")])⟩]
        (some (fun _ _ => PageRes.obj
          ⟨none, none, none, none, some (some [("a", Value.str "a2"), ("b", Value.str "b")])⟩))).result
      = PageOut.propsOut [("a", Value.str "a2"), ("b", Value.str "b")] ∧
    getKey (applyField [("a", Value.str "a1")]
      (some (some [("a", Value.str "a2"), ("b", Value.str "b")]))) "a" = some (Value.str "a2") ∧
    getKey (applyField [("a", Value.str "a1")] (some (some [("b", Value.str "b")]))) "a"
      = getKey [("a", Value.str "a1")] "a" ∧
    (apiHandler [fun _ => ApiRes.obj ⟨none, none, none, some (some [("d", Value.num 3)]), none⟩]
        (fun _ => some (Value.num 1))).fnArg
      = (apiHandler [fun _ => ApiRes.obj ⟨none, none, none, some (some [("d", Value.num 3)]), none⟩]
          (fun _ => none)).fnArg := by
  refine ⟨?_, ?_, ?_, ?_⟩
  · exact (claim5_final_handler_props.1
      [fun _ _ => PageRes.obj ⟨none, none, none, none, some (some [("a", Value.str "a1")])⟩]
      (fun _ _ => PageRes.obj
        ⟨none, none, none, none, some (some [("a", Value.str "a2"), ("b", Value.str "b")])⟩)
      ⟨none, none, none, none, some (some [("a", Value.str "a2"), ("b", Value.str "b")])⟩
      rfl rfl rfl).trans rfl
  · exact claim5_final_handler_props.2.1 [("a", Value.str "a1")]
      [("a", Value.str "a2"), ("b", Value.str "b")] "a" (Value.str "a2") (by decide) rfl
  · exact claim5_final_handler_props.2.2.1 [("a", Value.str "a1")] [("b", Value.str "b")] "a" rfl
  · exact (claim5_final_handler_props.2.2.2
      [fun _ => ApiRes.obj ⟨none, none, none, some (some [("d", Value.num 3)]), none⟩]
      (fun _ => some (Value.num 1)) (fun _ => none)).1

/-- C6: in the page flavor a result object is terminal exactly when it
contains a `notFound` or `redirect` key, the value being ignored — so
`{ notFound: false }` short-circuits and is returned as-is, and an object
with neither key continues; in the api flavor the `stop` key must be present
AND truthy, so `{ stop: false }` continues while a truthy `stop` stops. -/
theorem claim6_terminal_classification :
    (∀ (r : ResObj) (rest : List PageLayer) (i : Nat) (d p : Obj),
      (r.notFound.isSome ∨ r.redirect.isSome) →
      pageSteps ((fun _ _ => PageRes.obj r) :: rest) i d p
        = ⟨d, p, [i], [(d, p)], StepsOutcome.term r⟩) ∧
    (∀ (r : ResObj) (rest : List PageLayer) (i : Nat) (d p : Obj),
      r.notFound = none → r.redirect = none →
      pageSteps ((fun _ _ => PageRes.obj r) :: rest) i d p =
        ⟨(pageSteps rest (i + 1) (applyField d r.data) (applyField p r.props)).data,
          (pageSteps rest (i + 1) (applyField d r.data) (applyField p r.props)).props,
          i :: (pageSteps rest (i + 1) (applyField d r.data) (applyField p r.props)).invoked,
          (d, p) :: (pageSteps rest (i + 1) (applyField d r.data) (applyField p r.props)).inputs,
          (pageSteps rest (i + 1) (applyField d r.data) (applyField p r.props)).outcome⟩) ∧
    (∀ (r : ResObj) (rest : List ApiLayer) (i : Nat) (d : Obj) (v : Value),
      r.stop = some v → truthy v = false →
      apiSteps ((fun _ => ApiRes.obj r) :: rest) i d =
        ⟨(apiSteps rest (i + 1) (applyField d r.data)).data,
          i :: (apiSteps rest (i + 1) (applyField d r.data)).invoked,
          d :: (apiSteps rest (i + 1) (applyField d r.data)).inputs,
          (apiSteps rest (i + 1) (applyField d r.data)).stopped⟩) ∧
    (∀ (r : ResObj) (rest : List ApiLayer) (i : Nat) (d : Obj) (v : Value),
      r.stop = some v → truthy v = true →
      apiSteps ((fun _ => ApiRes.obj r) :: rest) i d = ⟨d, [i], [d], true⟩) ∧
    (∀ (r : ResObj) (rest : List ApiLayer) (i : Nat) (d : Obj),
      r.stop = none →
      apiSteps ((fun _ => ApiRes.obj r) :: rest) i d =
        ⟨(apiSteps rest (i + 1) (applyField d r.data)).data,
          i :: (apiSteps rest (i + 1) (applyField d r.data)).invoked,
          d :: (apiSteps rest (i + 1) (applyField d r.data)).inputs,
          (apiSteps rest (i + 1) (applyField d r.data)).stopped⟩) := by
  refine ⟨?_, ?_, ?_, ?_, ?_⟩
  · intro r rest i d p h
    have ht : isPageTerminal r = true := by
      cases h with
      | inl h1 => simp [isPageTerminal, h1]
      | inr h2 => simp [isPageTerminal, h2]
    simp [pageSteps, ht]
  · intro r rest i d p h1 h2
    have ht : isPageTerminal r = false := by simp [isPageTerminal, h1, h2]
    simp [pageSteps, ht]
  · intro r rest i d v hv htr
    have hs : stopTruthy r = false := by simp [stopTruthy, hv, htr]
    simp [apiSteps, hs]
  · intro r rest i d v hv htr
    have hs : stopTruthy r = true := by simp [stopTruthy, hv, htr]
    simp [apiSteps, hs]
  · intro r rest i d hv
    have hs : stopTruthy r = false := by simp [stopTruthy, hv]
    simp [apiSteps, hs]

/-- C6 witness: `{ notFound: false }` as a page layer result short-circuits
and is returned as-is, while `{ stop: false }` as an api layer result does
not stop and the run reaches the final handler. -/
theorem claim6_terminal_classification_witness :
    (pageHandler [fun _ _ => PageRes.obj ⟨none, some (Value.bool false), none, none, none⟩]
        (some (fun _ _ => PageRes.obj ⟨none, none, none, none, some (some [("x", Value.num 9)])⟩))).result
      = PageOut.terminal ⟨none, some (Value.bool false), none, none, none⟩ ∧
    apiSteps [fun _ => ApiRes.obj ⟨some (Value.bool false), none, none, none, none⟩] 0 [] =
      ⟨(apiSteps [] 1 (applyField []
          (⟨some (Value.bool false), none, none, none, none⟩ : ResObj).data)).data,
        0 :: (apiSteps [] 1 (applyField []
          (⟨some (Value.bool false), none, none, none, none⟩ : ResObj).data)).invoked,
        [] :: (apiSteps [] 1 (applyField []
          (⟨some (Value.bool false), none, none, none, none⟩ : ResObj).data)).inputs,
        (apiSteps [] 1 (applyField []
          (⟨some (Value.bool false), none, none, none, none⟩ : ResObj).data)).stopped⟩ ∧
    (apiHandler [fun _ => ApiRes.obj ⟨some (Value.bool false), none, none, none, none⟩]
        (fun _ => some (Value.num 7))).result = some (Value.num 7) ∧
    apiSteps [fun _ => ApiRes.obj ⟨some (Value.bool true), none, none, none, none⟩] 0 [] =
      ⟨[], [0], [[]], true⟩ := by
  have hpage := claim6_terminal_classification.1
    ⟨none, some (Value.bool false), none, none, none⟩ []
    0 [] [] (Or.inl rfl)
  have hapi := claim6_terminal_classification.2.2.1
    ⟨some (Value.bool false), none, none, none, none⟩ [] 0 [] (Value.bool false) rfl rfl
  have hstop := claim6_terminal_classification.2.2.2.1
    ⟨some (Value.bool true), none, none, none, none⟩ [] 0 [] (Value.bool true) rfl rfl
  refine ⟨?_, hapi, ?_, hstop⟩
  · show (pageHandler ([] ++ (fun _ _ => PageRes.obj
        ⟨none, some (Value.bool false), none, none, none⟩) :: []) _).result = _
    rw [List.nil_append]
    simp [pageHandler, hpage]
  · rfl

/-- C7: a layer result object matching neither the partial-accumulator shape
nor a terminal-outcome shape (no truthy `stop` in the api flavor, no
`notFound`/`redirect` key in the page flavor, and no object-valued
`data`/`props`) is treated as the no-op case: no error, accumulators
unchanged, and the chain advances to the next layer. -/
theorem claim7_unknown_shape_noop :
    (∀ (r : ResObj) (rest : List ApiLayer) (i : Nat) (d : Obj),
      stopTruthy r = false → (r.data = none ∨ r.data = some none) →
      apiSteps ((fun _ => ApiRes.obj r) :: rest) i d =
        ⟨(apiSteps rest (i + 1) d).data, i :: (apiSteps rest (i + 1) d).invoked,
          d :: (apiSteps rest (i + 1) d).inputs, (apiSteps rest (i + 1) d).stopped⟩) ∧
    (∀ (r : ResObj) (rest : List PageLayer) (i : Nat) (d p : Obj),
      r.notFound = none → r.redirect = none →
      (r.data = none ∨ r.data = some none) → (r.props = none ∨ r.props = some none) →
      pageSteps ((fun _ _ => PageRes.obj r) :: rest) i d p =
        ⟨(pageSteps rest (i + 1) d p).data, (pageSteps rest (i + 1) d p).props,
          i :: (pageSteps rest (i + 1) d p).invoked,
          (d, p) :: (pageSteps rest (i + 1) d p).inputs,
          (pageSteps rest (i + 1) d p).outcome⟩) := by
  constructor
  · intro r rest i d hs hd
    have hap : applyField d r.data = d := by
      cases hd with
      | inl h => simp [applyField, h]
      | inr h => simp [applyField, h]
    simp [apiSteps, hs, hap]
  · intro r rest i d p h1 h2 hd hp
    have ht : isPageTerminal r = false := by simp [isPageTerminal, h1, h2]
    have hap : applyField d r.data = d := by
      cases hd with
      | inl h => simp [applyField, h]
      | inr h => simp [applyField, h]
    have hap2 : applyField p r.props = p := by
      cases hp with
      | inl h => simp [applyField, h]
      | inr h => simp [applyField, h]
    simp [pageSteps, ht, hap, hap2]

/-- C7 witness: `{ stop: false, data: undefined }` in the api flavor and
`{ data: undefined, props: undefined }` in the page flavor are no-ops and the
chain advances to the next layer. -/
theorem claim7_unknown_shape_noop_witness :
    apiSteps ((fun _ => ApiRes.obj ⟨some (Value.bool false), none, none, some none, none⟩) ::
        [fun _ => ApiRes.obj ⟨none, none, none, some (some [("z", Value.num 5)]), none⟩]) 0 [] =
      ⟨(apiSteps [fun _ => ApiRes.obj ⟨none, none, none, some (some [("z", Value.num 5)]), none⟩]
          1 []).data,
        0 :: (apiSteps [fun _ => ApiRes.obj ⟨none, none, none, some (some [("z", Value.num 5)]), none⟩]
          1 []).invoked,
        [] :: (apiSteps [fun _ => ApiRes.obj ⟨none, none, none, some (some [("z", Value.num 5)]), none⟩]
          1 []).inputs,
        (apiSteps [fun _ => ApiRes.obj ⟨none, none, none, some (some [("z", Value.num 5)]), none⟩]
          1 []).stopped⟩ ∧
    pageSteps ((fun _ _ => PageRes.obj ⟨none, none, none, some none, some none⟩) :: []) 0 [] [] =
      ⟨(pageSteps [] 1 [] []).data, (pageSteps [] 1 [] []).props,
        0 :: (pageSteps [] 1 [] []).invoked, ([], []) :: (pageSteps [] 1 [] []).inputs,
        (pageSteps [] 1 [] []).outcome⟩ :=
  ⟨claim7_unknown_shape_noop.1 ⟨some (Value.bool false), none, none, some none, none⟩
      [fun _ => ApiRes.obj ⟨none, none, none, some (some [("z", Value.num 5)]), none⟩] 0 []
      rfl (Or.inr rfl),
    claim7_unknown_shape_noop.2 ⟨none, none, none, some none, some none⟩ [] 0 [] []
      rfl rfl (Or.inr rfl) (Or.inr rfl)⟩

/-! ### disjoint-contribution lemmas (C8) -/

theorem getKey_isSome_iff (o : Obj) (k : String) :
    (getKey o k).isSome ↔ k ∈ keys o := by
  constructor
  · intro hs
    by_contra hmem
    rw [(getKey_eq_none_iff o k).mpr hmem] at hs
    simp at hs
  · intro hmem
    cases h : getKey o k with
    | some v => rfl
    | none => exact absurd ((getKey_eq_none_iff o k).mp h) (by simp [hmem])

theorem disj_symm (a b : Obj) (h : DisjObjs a b) : DisjObjs b a :=
  fun k hkb hka => h k hka hkb

theorem disj_symmetric : Symmetric DisjObjs :=
  fun a b h => disj_symm a b h

/-- Under pairwise-disjoint contributions, any two partials carrying the same
key agree on its value (they must be the same partial). -/
theorem pairwise_disj_getKey_eq (os : List Obj) (h : os.Pairwise DisjObjs) (k : String) :
    ∀ o1 ∈ os, ∀ o2 ∈ os, k ∈ keys o1 → k ∈ keys o2 → getKey o1 k = getKey o2 k := by
  intro o1 h1 o2 h2 s1 s2
  by_cases he : o1 = o2
  · rw [he]
  · exact absurd s2 (h.forall disj_symmetric h1 h2 he k s1)

theorem unionGet_cons (o : Obj) (os : List Obj) (k : String) :
    unionGet (o :: os) k =
      (match getKey o k with
        | some v => some v
        | none => unionGet os k) := by
  simp only [unionGet, List.findSome?_cons]
  cases getKey o k <;> rfl

/-- With pairwise-disjoint contributions the last writer of a key is also the
only writer, so the fold result equals the union lookup. -/
theorem lastWrite_eq_unionGet (os : List Obj) (h : os.Pairwise DisjObjs) (k : String) :
    lastWrite os k = unionGet os k := by
  induction os with
  | nil => rfl
  | cons o rest ih =>
    obtain ⟨hd, ht⟩ := List.pairwise_cons.mp h
    rw [lastWrite_cons, ih ht]
    cases hg : getKey o k with
    | some v =>
      have hrest : unionGet rest k = none := by
        simp only [unionGet, List.findSome?_eq_none_iff]
        intro o2 ho2
        rw [getKey_eq_none_iff]
        intro hmem
        exact hd o2 ho2 k ((getKey_isSome_iff o k).mp (by simp [hg])) hmem
      simp [hrest, unionGet_cons, hg]
    | none =>
      rw [unionGet_cons, hg]
      cases hu : unionGet rest k <;> simp [hu, hg]

theorem unionGet_eq_some_of_mem (os : List Obj) (k : String) (o : Obj) (v : Value)
    (h : os.Pairwise DisjObjs) (ho : o ∈ os) (hv : getKey o k = some v) :
    unionGet os k = some v := by
  cases hu : unionGet os k with
  | none =>
    simp only [unionGet, List.findSome?_eq_none_iff] at hu
    exact absurd hv (by simp [hu o ho])
  | some w =>
    simp only [unionGet] at hu
    obtain ⟨o2, ho2, hw⟩ := List.exists_of_findSome?_eq_some hu
    have heq := pairwise_disj_getKey_eq os h k o2 ho2 o ho
      ((getKey_isSome_iff o2 k).mp (by simp [hw]))
      ((getKey_isSome_iff o k).mp (by simp [hv]))
    rw [hw, hv] at heq
    exact heq

/-- The union lookup is invariant under permutations of pairwise-disjoint
contributions. -/
theorem unionGet_perm (os os2 : List Obj) (k : String) (hp : os.Perm os2)
    (h : os.Pairwise DisjObjs) : unionGet os k = unionGet os2 k := by
  have h2 : os2.Pairwise DisjObjs :=
    (List.Perm.pairwise_iff (fun hab => disj_symmetric hab) hp).mp h
  cases hu : unionGet os k with
  | some v =>
    simp only [unionGet] at hu
    obtain ⟨o, ho, hv⟩ := List.exists_of_findSome?_eq_some hu
    exact (unionGet_eq_some_of_mem os2 k o v h2 (hp.subset ho) hv).symm
  | none =>
    cases hu2 : unionGet os2 k with
    | none => rfl
    | some w =>
      simp only [unionGet] at hu hu2
      obtain ⟨o, ho, hw⟩ := List.exists_of_findSome?_eq_some hu2
      rw [List.findSome?_eq_none_iff] at hu
      exact absurd hw (by simp [hu o (hp.symm.subset ho)])

/-- Final api `data` of a chain of pure data layers, per key. -/
theorem apiData_getKey_lastWrite (os : List Obj) (k : String)
    (h : ∀ o ∈ os, NodupKeys o) :
    getKey (apiSteps (dataLayers os) 0 []).data k = lastWrite os k := by
  rw [(apiSteps_dataLayers os 0 []).1, getKey_foldl_objAssign os [] k h]
  cases lastWrite os k with
  | some v => rfl
  | none => rfl

/-- Final page `props` of a chain of pure props layers, per key. -/
theorem pageProps_getKey_lastWrite (os : List Obj) (k : String)
    (h : ∀ o ∈ os, NodupKeys o) :
    getKey (pageSteps (propsLayers os) 0 [] []).props k = lastWrite os k := by
  rw [(pageSteps_propsLayers os 0 [] []).1, getKey_foldl_objAssign os [] k h]
  cases lastWrite os k with
  | some v => rfl
  | none => rfl

/-- C8: when the layers' contributed keys are pairwise disjoint (and nothing
terminal occurs), the final accumulator is the union of all contributions,
and its content is independent of the order of the layers in the chain — in
the api `data` accumulator and the page `props` accumulator alike. -/
theorem claim8_disjoint_union :
    (∀ (os : List Obj) (k : String), (∀ o ∈ os, NodupKeys o) → os.Pairwise DisjObjs →
      getKey (apiSteps (dataLayers os) 0 []).data k = unionGet os k) ∧
    (∀ (os : List Obj) (k : String), (∀ o ∈ os, NodupKeys o) → os.Pairwise DisjObjs →
      getKey (pageSteps (propsLayers os) 0 [] []).props k = unionGet os k) ∧
    (∀ (os os2 : List Obj) (k : String), os.Perm os2 →
      (∀ o ∈ os, NodupKeys o) → os.Pairwise DisjObjs →
      getKey (apiSteps (dataLayers os) 0 []).data k
        = getKey (apiSteps (dataLayers os2) 0 []).data k) ∧
    (∀ (os os2 : List Obj) (k : String), os.Perm os2 →
      (∀ o ∈ os, NodupKeys o) → os.Pairwise DisjObjs →
      getKey (pageSteps (propsLayers os) 0 [] []).props k
        = getKey (pageSteps (propsLayers os2) 0 [] []).props k) := by
  have hside : ∀ (os os2 : List Obj), os.Perm os2 → (∀ o ∈ os, NodupKeys o) →
      os.Pairwise DisjObjs →
      ((∀ o ∈ os2, NodupKeys o) ∧ os2.Pairwise DisjObjs) := by
    intro os os2 hp hnd h
    exact ⟨fun o ho => hnd o (hp.symm.subset ho),
      (List.Perm.pairwise_iff (fun hab => disj_symmetric hab) hp).mp h⟩
  refine ⟨?_, ?_, ?_, ?_⟩
  · intro os k hnd h
    rw [apiData_getKey_lastWrite os k hnd, lastWrite_eq_unionGet os h k]
  · intro os k hnd h
    rw [pageProps_getKey_lastWrite os k hnd, lastWrite_eq_unionGet os h k]
  · intro os os2 k hp hnd h
    obtain ⟨hnd2, h2⟩ := hside os os2 hp hnd h
    rw [apiData_getKey_lastWrite os k hnd, apiData_getKey_lastWrite os2 k hnd2,
      lastWrite_eq_unionGet os h k, lastWrite_eq_unionGet os2 h2 k,
      unionGet_perm os os2 k hp h]
  · intro os os2 k hp hnd h
    obtain ⟨hnd2, h2⟩ := hside os os2 hp hnd h
    rw [pageProps_getKey_lastWrite os k hnd, pageProps_getKey_lastWrite os2 k hnd2,
      lastWrite_eq_unionGet os h k, lastWrite_eq_unionGet os2 h2 k,
      unionGet_perm os os2 k hp h]

/-- C8 witness: two layers with disjoint keys `a`, `b` in either order: the
final accumulator holds the union and the content is order-independent. -/
theorem claim8_disjoint_union_witness :
    getKey (apiSteps (dataLayers [[("a", Value.num 1)], [("b", Value.num 2)]]) 0 []).data "a"
      = some (Value.num 1) ∧
    getKey (pageSteps (propsLayers [[("a", Value.num 1)], [("b", Value.num 2)]]) 0 [] []).props "b"
      = some (Value.num 2) ∧
    getKey (apiSteps (dataLayers [[("a", Value.num 1)], [("b", Value.num 2)]]) 0 []).data "a"
      = getKey (apiSteps (dataLayers [[("b", Value.num 2)], [("a", Value.num 1)]]) 0 []).data "a" ∧
    getKey (pageSteps (propsLayers [[("a", Value.num 1)], [("b", Value.num 2)]]) 0 [] []).props "b"
      = getKey (pageSteps (propsLayers [[("b", Value.num 2)], [("a", Value.num 1)]]) 0 [] []).props "b" := by
  refine ⟨?_, ?_, ?_, ?_⟩
  · exact (claim8_disjoint_union.1 [[("a", Value.num 1)], [("b", Value.num 2)]] "a"
      (by decide) (by decide)).trans rfl
  · exact (claim8_disjoint_union.2.1 [[("a", Value.num 1)], [("b", Value.num 2)]] "b"
      (by decide) (by decide)).trans rfl
  · exact claim8_disjoint_union.2.2.1 [[("a", Value.num 1)], [("b", Value.num 2)]]
      [[("b", Value.num 2)], [("a", Value.num 1)]] "a" (by decide) (by decide) (by decide)
  · exact claim8_disjoint_union.2.2.2 [[("a", Value.num 1)], [("b", Value.num 2)]]
      [[("b", Value.num 2)], [("a", Value.num 1)]] "b" (by decide) (by decide) (by decide)

/-! ### run-shape helpers (C9, C10) -/

theorem apiHandler_inputs (layers : List ApiLayer) (fn : Obj → Option Value) :
    (apiHandler layers fn).inputs = (apiSteps layers 0 []).inputs := by
  cases hs : (apiSteps layers 0 []).stopped <;> simp [apiHandler, hs]

theorem pageHandler_inputs (layers : List PageLayer) (fn : Option (Obj → Obj → PageRes)) :
    (pageHandler layers fn).inputs = (pageSteps layers 0 [] []).inputs := by
  cases ho : (pageSteps layers 0 [] []).outcome with
  | thrown => simp [pageHandler, ho]
  | term r => simp [pageHandler, ho]
  | ok =>
    cases fn with
    | none => simp [pageHandler, ho]
    | some f =>
      cases hf : f (pageSteps layers 0 [] []).data (pageSteps layers 0 [] []).props with
      | undef => simp [pageHandler, ho, hf]
      | obj r =>
        cases ht : isPageTerminal r <;> simp [pageHandler, ho, hf, ht]

theorem apiSteps_inputs_head (l : ApiLayer) (rest : List ApiLayer) (i : Nat) (d : Obj) :
    (apiSteps (l :: rest) i d).inputs.head? = some d := by
  cases hl : l d with
  | undef => simp [apiSteps, hl]
  | obj r => cases hs : stopTruthy r <;> simp [apiSteps, hl, hs]

theorem pageSteps_inputs_head (l : PageLayer) (rest : List PageLayer) (i : Nat) (d p : Obj) :
    (pageSteps (l :: rest) i d p).inputs.head? = some (d, p) := by
  cases hl : l d p with
  | undef => simp [pageSteps, hl]
  | obj r => cases ht : isPageTerminal r <;> simp [pageSteps, hl, ht]

/-- C9: with no final-handler function, a page run that completes without a
terminal outcome yields `{ props: <merged layer props> }`, with no
final-handler step executed. -/
theorem claim9_no_final_handler :
    ∀ (layers : List PageLayer),
      (pageSteps layers 0 [] []).outcome = StepsOutcome.ok →
      pageHandler layers none =
        ⟨PageOut.propsOut (pageSteps layers 0 [] []).props,
          (pageSteps layers 0 [] []).invoked, (pageSteps layers 0 [] []).inputs, none⟩ := by
  intro layers h
  simp [pageHandler, h]

/-- C9 witness: a single props-contributing layer and no final handler:
the result is `{ props: {p: 1} }` and `fnArg = none` (no handler step). -/
theorem claim9_no_final_handler_witness :
    pageHandler [fun _ _ => PageRes.obj ⟨none, none, none, none, some (some [("p", Value.num 1)])⟩]
        none =
      ⟨PageOut.propsOut
          (pageSteps [fun _ _ => PageRes.obj
            ⟨none, none, none, none, some (some [("p", Value.num 1)])⟩] 0 [] []).props,
        (pageSteps [fun _ _ => PageRes.obj
            ⟨none, none, none, none, some (some [("p", Value.num 1)])⟩] 0 [] []).invoked,
        (pageSteps [fun _ _ => PageRes.obj
            ⟨none, none, none, none, some (some [("p", Value.num 1)])⟩] 0 [] []).inputs,
        none⟩ ∧
    (pageHandler [fun _ _ => PageRes.obj ⟨none, none, none, none, some (some [("p", Value.num 1)])⟩]
        none).result = PageOut.propsOut [("p", Value.num 1)] :=
  ⟨claim9_no_final_handler
      [fun _ _ => PageRes.obj ⟨none, none, none, none, some (some [("p", Value.num 1)])⟩] rfl,
    rfl⟩

/-- C10: every invocation of a compiled handler starts from a freshly
allocated empty accumulator (the first layer always receives `{}`), and the
run is a function of the layers' per-invocation behavior alone: two
invocations (contexts `c1`, `c2`) in which every layer and the final handler
behave identically produce identical results — no accumulator state crosses
invocations. -/
theorem claim10_fresh_accumulators :
    (∀ (γ : Type) (l : γ → Obj → ApiRes) (ls : List (γ → Obj → ApiRes))
        (fn : γ → Obj → Option Value) (c : γ),
      (apiHandlerC (l :: ls) fn c).inputs.head? = some []) ∧
    (∀ (γ : Type) (ls : List (γ → Obj → ApiRes)) (fn : γ → Obj → Option Value) (c1 c2 : γ),
      (∀ l ∈ ls, ∀ d, l c1 d = l c2 d) → (∀ d, fn c1 d = fn c2 d) →
      apiHandlerC ls fn c1 = apiHandlerC ls fn c2) ∧
    (∀ (γ : Type) (l : γ → Obj → Obj → PageRes) (ls : List (γ → Obj → Obj → PageRes))
        (fn : Option (γ → Obj → Obj → PageRes)) (c : γ),
      (pageHandlerC (l :: ls) fn c).inputs.head? = some ([], [])) ∧
    (∀ (γ : Type) (ls : List (γ → Obj → Obj → PageRes)) (fn : Option (γ → Obj → Obj → PageRes))
        (c1 c2 : γ),
      (∀ l ∈ ls, ∀ d p, l c1 d p = l c2 d p) →
      (∀ f, fn = some f → ∀ d p, f c1 d p = f c2 d p) →
      pageHandlerC ls fn c1 = pageHandlerC ls fn c2) := by
  refine ⟨?_, ?_, ?_, ?_⟩
  · intro γ l ls fn c
    rw [apiHandlerC, List.map_cons, apiHandler_inputs, apiSteps_inputs_head]
  · intro γ ls fn c1 c2 hl hf
    have hmap : ls.map (fun l => l c1) = ls.map (fun l => l c2) :=
      List.map_congr_left (fun l hm => funext (fun d => hl l hm d))
    have hfn : fn c1 = fn c2 := funext hf
    rw [apiHandlerC, apiHandlerC, hmap, hfn]
  · intro γ l ls fn c
    rw [pageHandlerC, List.map_cons, pageHandler_inputs, pageSteps_inputs_head]
  · intro γ ls fn c1 c2 hl hf
    have hmap : ls.map (fun l => l c1) = ls.map (fun l => l c2) :=
      List.map_congr_left (fun l hm => funext (fun d => funext (fun p => hl l hm d p)))
    have hfn : (fn.map (fun f => fun d p => f c1 d p))
        = fn.map (fun f => fun d p => f c2 d p) := by
      cases hc : fn with
      | none => rfl
      | some f =>
        simp only [Option.map_some']
        exact congrArg some (funext (fun d => funext (fun p => hf f hc d p)))
    rw [pageHandlerC, pageHandlerC, hmap, hfn]

/-- C10 witness: a concrete compiled handler whose layers behave identically
on two different request contexts (0 and 1): both invocations start from the
empty accumulator and produce the same run. -/
theorem claim10_fresh_accumulators_witness :
    (apiHandlerC ((fun _ => fun _ => ApiRes.obj
          ⟨none, none, none, some (some [("u", Value.str "me")]), none⟩) ::
        ([] : List (Nat → Obj → ApiRes))) (fun _ => fun _ => none) 0).inputs.head?
      = some [] ∧
    apiHandlerC [fun _ => fun _ => ApiRes.obj
          ⟨none, none, none, some (some [("u", Value.str "me")]), none⟩]
        (fun _ => fun _ => none) 0
      = apiHandlerC [fun _ => fun _ => ApiRes.obj
          ⟨none, none, none, some (some [("u", Value.str "me")]), none⟩]
        (fun _ => fun _ => none) 1 ∧
    (pageHandlerC ((fun _ => fun _ _ => PageRes.obj
          ⟨none, none, none, none, some (some [("p", Value.num 2)])⟩) ::
        ([] : List (Nat → Obj → Obj → PageRes))) none 0).inputs.head?
      = some ([], []) ∧
    pageHandlerC [fun _ => fun _ _ => PageRes.obj
          ⟨none, none, none, none, some (some [("p", Value.num 2)])⟩]
        (none : Option (Nat → Obj → Obj → PageRes)) 0
      = pageHandlerC [fun _ => fun _ _ => PageRes.obj
          ⟨none, none, none, none, some (some [("p", Value.num 2)])⟩]
        (none : Option (Nat → Obj → Obj → PageRes)) 1 := by
  refine ⟨?_, ?_, ?_, ?_⟩
  · exact claim10_fresh_accumulators.1 Nat _ [] (fun _ => fun _ => none) 0
  · exact claim10_fresh_accumulators.2.1 Nat
      [fun _ => fun _ => ApiRes.obj ⟨none, none, none, some (some [("u", Value.str "me")]), none⟩]
      (fun _ => fun _ => none) 0 1 (fun l hm d => by simp at hm; rw [hm]) (fun d => rfl)
  · exact claim10_fresh_accumulators.2.2.1 Nat _ [] none 0
  · exact claim10_fresh_accumulators.2.2.2 Nat
      [fun _ => fun _ _ => PageRes.obj ⟨none, none, none, none, some (some [("p", Value.num 2)])⟩]
      none 0 1 (fun l hm d p => by simp at hm; rw [hm]) (fun f hc => by cases hc)

end Gisspy
